import Mathlib

/-!
Verification of the roboflo scheduling library: a shallow embedding of its
data model (workers, tasks, transitions, protocols), the `System` authoring
layer and the CP-model-building `Scheduler`, with theorems settling the
specification claims against the translated code.

Conventions used throughout:
* Python's NaN "unsolved" sentinel on `start`/`end` is modelled by
  `Option Int` with `none` for NaN (a comparison with NaN is false, and
  `np.isnan` is `Option.isNone`).
* `generate_id` produces uuid4-based ids that never collide; fresh ids are
  supplied explicitly (as arguments or from a counter), and freshness shows
  up as a hypothesis or as a counter invariant.
* Python dictionaries are association lists keyed by strings; `Worker.__eq__`
  and `Task.__eq__` compare names resp. ids, so keys are names resp. ids.
* Exceptions are modelled with `Except`.
-/

namespace Roboflo

/-- Worker record, translated from `roboflo/components.py` (class `Worker`):
the constructor stores its four arguments as attributes.  Python
`Worker.__eq__` compares the class and the `name`, so worker equality is
name equality in this embedding. -/
structure Worker where
  name : String
  capacity : Int
  one_task_at_a_time : Bool
  initial_fill : Int
  deriving Repr, DecidableEq

/-- Translation of `Worker.__init__` (components.py lines 18-28).  The body
is four attribute assignments; no validation is performed and the
constructor never raises, so it is a total function into `Worker`. -/
def workerInit (name : String) (capacity : Int) (one_task_at_a_time : Bool)
    (initial_fill : Int) : Worker :=
  { name := name, capacity := capacity,
    one_task_at_a_time := one_task_at_a_time, initial_fill := initial_fill }

/-- Task record, translated from `roboflo/components.py` (`Task.__init__`).
`precedent` holds the ids of the precedent tasks (components.py keeps a list
of `Task` objects; tasks compare by id).  `details` is opaque to scheduling
and stands in as an `Int` payload so frame theorems can state it is
untouched.  `endTime` renders the Python attribute `end` (a Lean keyword). -/
structure CTask where
  name : String
  id : String
  workers : List Worker
  duration : Int
  precedent : List String
  immediate : Bool
  details : Int
  breakpoint : Bool
  capacity : Int
  utilized_capacity : Int
  min_start : Int
  start : Option Int
  endTime : Option Int
  solution_count : Int
  deriving Repr, DecidableEq

/-- The fresh id a cloned precedent receives: `deepcopy` of the `precedent`
list re-runs `Task.__deepcopy__` on each precedent task, which calls
`generate_id` again.  The resulting uuid4 is modelled as derived from the
clone's own fresh id; what the theorems use is only that it differs from
the original precedent id (uuid4 ids never repeat). -/
def freshPrecId (freshId : String) (pid : String) : String :=
  freshId ++ "-prec-" ++ pid

/-- Translation of `Task.__deepcopy__` (components.py lines 96-115): every
attribute is copied to the clone with `deepcopy(v, memo)` — so the
`precedent` list is deep-copied too, each precedent task being cloned with
a fresh id of its own — then the clone receives a freshly generated id
(`generate_id`; the uuid4-based `freshId` is passed in) and
`_utilized_capacity` is reset to 0.  Nothing else is modified — in
particular the solved `start`/`end` values are copied as they are. -/
def deepcopyTask (t : CTask) (freshId : String) : CTask :=
  { t with id := freshId,
           precedent := t.precedent.map (freshPrecId freshId),
           utilized_capacity := 0 }

/-- A cloned precedent's id always differs from the original precedent's id
(the model's rendering of uuid4 freshness). -/
theorem freshPrecId_ne (freshId pid : String) : freshPrecId freshId pid ≠ pid := by
  intro h
  have hl := congrArg String.length h
  rw [freshPrecId, String.length_append, String.length_append] at hl
  have hsep : ("-prec-" : String).length = 6 := rfl
  omega

/-- Translation of `Task.__eq__` (components.py lines 93-94): ids compared. -/
def taskEq (a b : CTask) : Bool := a.id == b.id

/-- Modelled from the spec: `Scheduler.flex` is absent from the source
snapshot (only the spec and the test suite reference it).  Per the spec,
"A flex(t) operation resets all start/end fields of tasks whose solved
start is >= t back to the unsolved sentinel".  A NaN (unsolved) start
compares false against t, so unsolved tasks are left alone. -/
def flexTask (t : Int) (task : CTask) : CTask :=
  match task.start with
  | some s => if t ≤ s then { task with start := none, endTime := none } else task
  | none => task

/-- Modelled from the spec: `flex` applied across the scheduler's tasks. -/
def flex (t : Int) (tasks : List CTask) : List CTask :=
  tasks.map (flexTask t)

/-- A task with solved times, used as concrete input in several witnesses. -/
def sampleSolvedTask : CTask :=
  { name := "anneal", id := "anneal-1", workers := [], duration := 10,
    precedent := [], immediate := false, details := 7, breakpoint := false,
    capacity := 3, utilized_capacity := 2, min_start := 0,
    start := some 5, endTime := some 15, solution_count := 1 }

/-- C7: `Worker.__init__` (components.py lines 18-28) performs no capacity
validation: at the failing input from the repository's own test suite
(test_workers.py, `test_WorkerCapacity`, which expects a ValueError for
capacity 0) construction succeeds and stores capacity 0 verbatim. -/
theorem c7_worker_init_accepts_capacity_zero :
    workerInit "test_worker" 0 false 0 =
      { name := "test_worker", capacity := 0, one_task_at_a_time := false,
        initial_fill := 0 } := rfl

/-- C8 counterexample: cloning a solved task via `Task.__deepcopy__` keeps
its solved `start`/`end` values instead of resetting them to the unsolved
sentinel, refuting the claim at a concrete solved task. -/
theorem c8_clone_keeps_solved_times :
    (deepcopyTask sampleSolvedTask "anneal-2").start ≠ none ∧
    (deepcopyTask sampleSolvedTask "anneal-2").endTime ≠ none := by
  decide

/-- C8 (amended): cloning a task produces a task with the freshly generated
id (distinct from the original's, since `generate_id` never repeats) and
utilized capacity reset to zero; its solved `start`/`end` values are NOT
reset but copied unchanged; its precedent list is itself deep-copied, so
each entry becomes a fresh clone whose id differs from the original
precedent's id (under id-based equality the precedent references are not
preserved); the scalar fields keep their values, and task equality remains
comparison of ids, so the clone is unequal to the original. -/
theorem c8_clone_spec (t : CTask) (freshId : String) (hfresh : freshId ≠ t.id) :
    (deepcopyTask t freshId).id ≠ t.id ∧
    (deepcopyTask t freshId).utilized_capacity = 0 ∧
    (deepcopyTask t freshId).start = t.start ∧
    (deepcopyTask t freshId).endTime = t.endTime ∧
    (deepcopyTask t freshId).name = t.name ∧
    (deepcopyTask t freshId).duration = t.duration ∧
    (deepcopyTask t freshId).precedent = t.precedent.map (freshPrecId freshId) ∧
    (∀ pid ∈ t.precedent, freshPrecId freshId pid ≠ pid) ∧
    (deepcopyTask t freshId).immediate = t.immediate ∧
    (deepcopyTask t freshId).capacity = t.capacity ∧
    (deepcopyTask t freshId).min_start = t.min_start ∧
    taskEq (deepcopyTask t freshId) t = false := by
  refine ⟨hfresh, rfl, rfl, rfl, rfl, rfl, rfl,
    fun pid _ => freshPrecId_ne freshId pid, rfl, rfl, rfl, ?_⟩
  simp [taskEq, deepcopyTask, hfresh]

/-- Witness for the amended C8 theorem at a concrete solved task. -/
theorem c8_clone_spec_witness :
    (deepcopyTask sampleSolvedTask "anneal-2").utilized_capacity = 0 ∧
    taskEq (deepcopyTask sampleSolvedTask "anneal-2") sampleSolvedTask = false := by
  have h := c8_clone_spec sampleSolvedTask "anneal-2" (by decide)
  obtain ⟨_, hu, _, _, _, _, _, _, _, _, _, heq⟩ := h
  exact ⟨hu, heq⟩

/-- C5: flex(t) resets `start`/`end` to the unsolved sentinel exactly for
tasks whose solved start is at least t; a task with solved start below t,
or with no solved start, is returned entirely unchanged, and even on reset
tasks every field other than `start`/`end` is untouched. -/
theorem c5_flex_resets_exactly_tail (t : Int) (task : CTask) :
    (∀ s, task.start = some s → t ≤ s →
        (flexTask t task).start = none ∧ (flexTask t task).endTime = none) ∧
    (∀ s, task.start = some s → s < t → flexTask t task = task) ∧
    (task.start = none → flexTask t task = task) ∧
    ((flexTask t task).name = task.name ∧
     (flexTask t task).id = task.id ∧
     (flexTask t task).workers = task.workers ∧
     (flexTask t task).duration = task.duration ∧
     (flexTask t task).precedent = task.precedent ∧
     (flexTask t task).immediate = task.immediate ∧
     (flexTask t task).details = task.details ∧
     (flexTask t task).breakpoint = task.breakpoint ∧
     (flexTask t task).capacity = task.capacity ∧
     (flexTask t task).utilized_capacity = task.utilized_capacity ∧
     (flexTask t task).min_start = task.min_start ∧
     (flexTask t task).solution_count = task.solution_count) := by
  constructor
  · intro s hs hts
    simp [flexTask, hs, if_pos hts]
  constructor
  · intro s hs hst
    simp [flexTask, hs, if_neg (not_le.mpr hst)]
  constructor
  · intro hs
    simp [flexTask, hs]
  · unfold flexTask
    cases hst : task.start with
    | none => simp
    | some s =>
      by_cases h : t ≤ s
      · simp [if_pos h]
      · simp [if_neg h]

/-- Witness for C5 at a concrete solved task and cutoff below its start. -/
theorem c5_flex_witness :
    (flexTask 2 sampleSolvedTask).start = none ∧
    (flexTask 2 sampleSolvedTask).endTime = none ∧
    (flexTask 9 sampleSolvedTask) = sampleSolvedTask := by
  have h := c5_flex_resets_exactly_tail 2 sampleSolvedTask
  have h9 := c5_flex_resets_exactly_tail 9 sampleSolvedTask
  have hr := h.1 5 rfl (by norm_num)
  exact ⟨hr.1, hr.2, h9.2.1 5 rfl (by norm_num)⟩

/-- Transition as consumed by `System.__init__` (system.py lines 36-38):
only its source and destination workers matter for construction-time
validation; the payload (duration, immediacy) rides along. -/
structure TransitionRec where
  source : Worker
  destination : Worker
  duration : Int
  immediate : Bool
  deriving Repr, DecidableEq

/-- The exceptions `System.__init__` can raise: two explicit ValueErrors, and
the KeyError from `self.transitions[t.source]` when a transition's source
worker is not a dictionary key (i.e. not in the workers list). -/
inductive SysError where
  | valueErrorDuplicateWorkers
  | valueErrorStartingWorkerMissing
  | keyErrorTransitionSource
  deriving Repr, DecidableEq

/-- Which of the `System.__init__` exceptions are Python ValueErrors. -/
def SysError.isValueError : SysError → Bool
  | .valueErrorDuplicateWorkers => true
  | .valueErrorStartingWorkerMissing => true
  | .keyErrorTransitionSource => false

/-- The attributes `System.__init__` stores (system.py lines 29-38); the
transitions dictionary maps a source worker name to destination worker name
to transition. -/
structure SystemRec where
  workers : List Worker
  starting_worker : Option Worker
  ending_worker : Option Worker
  transitions : List (String × List (String × TransitionRec))
  deriving Repr, DecidableEq

/-- Python `len(set(workers)) != len(workers)`: `Worker.__hash__` hashes the
class and `Worker.__eq__` compares names, so the set deduplicates workers by
name and the check detects a repeated name. -/
def namesHaveDuplicate : List Worker → Bool
  | [] => false
  | w :: rest => rest.any (fun u => u.name == w.name) || namesHaveDuplicate rest

/-- Python membership `starting_worker not in self.workers` through
`Worker.__eq__` (name comparison); `None` compares unequal to every worker,
so it is never a member. -/
def optWorkerMem (x : Option Worker) (ws : List Worker) : Bool :=
  match x with
  | none => false
  | some w => ws.any (fun u => u.name == w.name)

/-- Assignment `inner[dst] = t` on the inner transitions dictionary:
overwrite an existing key, else append a new one. -/
def setInner (inner : List (String × TransitionRec)) (dst : String)
    (t : TransitionRec) : List (String × TransitionRec) :=
  if inner.any (fun p => p.1 == dst) then
    inner.map (fun p => if p.1 == dst then (dst, t) else p)
  else inner ++ [(dst, t)]

/-- One step of the loop `self.transitions[t.source][t.destination] = t`:
reading `self.transitions[t.source]` raises KeyError when the source name is
not a key; the destination is inserted into the inner dictionary without any
check. -/
def insertTransition (dict : List (String × List (String × TransitionRec)))
    (t : TransitionRec) :
    Except SysError (List (String × List (String × TransitionRec))) :=
  if dict.any (fun p => p.1 == t.source.name) then
    Except.ok (dict.map (fun p =>
      if p.1 == t.source.name then (p.1, setInner p.2 t.destination.name t) else p))
  else Except.error SysError.keyErrorTransitionSource

/-- Fold of `insertTransition` over the supplied transitions list. -/
def insertTransitions (dict : List (String × List (String × TransitionRec))) :
    List TransitionRec →
    Except SysError (List (String × List (String × TransitionRec)))
  | [] => Except.ok dict
  | t :: rest =>
    match insertTransition dict t with
    | Except.error e => Except.error e
    | Except.ok d => insertTransitions d rest

/-- Translation of `System.__init__` (system.py lines 29-46, validation and
dictionary construction; the `Scheduler` wiring and the ephemeral caches it
also initializes carry no validation).  Note the ending worker is stored
without any membership check, and transition destinations are inserted
unchecked. -/
def systemInit (workers : List Worker) (transitions : List TransitionRec)
    (starting_worker ending_worker : Option Worker) :
    Except SysError SystemRec :=
  if namesHaveDuplicate workers then Except.error SysError.valueErrorDuplicateWorkers
  else if !optWorkerMem starting_worker workers then
    Except.error SysError.valueErrorStartingWorkerMissing
  else
    match insertTransitions (workers.map (fun w => (w.name, []))) transitions with
    | Except.error e => Except.error e
    | Except.ok dict =>
      Except.ok { workers := workers, starting_worker := starting_worker,
                  ending_worker := ending_worker, transitions := dict }

/-- Resolution of the protocol's starting worker inside
`System.generate_protocol` (system.py lines 133-140): the explicit argument
wins, else the system default; the ValueError branch fires only when both
are `None`. -/
def resolveSource (sys : SystemRec) (starting_worker : Option Worker) :
    Except String Worker :=
  match (match starting_worker with
         | none => sys.starting_worker
         | some w => some w) with
  | none => Except.error "No default starting worker defined for this System"
  | some w => Except.ok w

/-- C6 counterexample: with a single worker `a` as both list and starting
worker, and an ending worker `b` that is NOT in the workers list,
`System.__init__` succeeds — refuting the claim that construction fails
whenever the ending worker is absent from the workers list. -/
theorem c6_init_accepts_unknown_ending_worker :
    optWorkerMem (some (workerInit "b" 1 false 0)) [workerInit "a" 1 false 0] = false ∧
    systemInit [workerInit "a" 1 false 0] []
        (some (workerInit "a" 1 false 0)) (some (workerInit "b" 1 false 0)) =
      Except.ok { workers := [workerInit "a" 1 false 0],
                  starting_worker := some (workerInit "a" 1 false 0),
                  ending_worker := some (workerInit "b" 1 false 0),
                  transitions := [("a", [])] } := by
  constructor
  · decide
  · rfl

/-- Keys of the transitions dictionary are never changed by the insertion
loop, so presence of a source name is invariant. -/
theorem insertTransitions_keys_pred (p : String → Bool) :
    ∀ (ts : List TransitionRec) (dict d : List (String × List (String × TransitionRec))),
      insertTransitions dict ts = Except.ok d →
      (dict.any (fun q => p q.1)) = (d.any (fun q => p q.1)) := by
  intro ts
  induction ts with
  | nil =>
    intro dict d h
    simp [insertTransitions] at h
    subst h
    rfl
  | cons t rest ih =>
    intro dict d h
    unfold insertTransitions at h
    unfold insertTransition at h
    by_cases hk : dict.any (fun q => q.1 == t.source.name)
    · rw [if_pos hk] at h
      have hstep := ih _ _ h
      rw [← hstep]
      simp only [List.any_map]
      congr 1
      funext q
      by_cases hq : q.1 = t.source.name <;> simp [hq]
    · rw [if_neg hk] at h
      simp at h

/-- Whether an `Except` computation succeeded. -/
def exceptOk {e a : Type} : Except e a → Bool
  | Except.ok _ => true
  | Except.error _ => false

/-- A single dictionary update step leaves the key predicate of every entry
unchanged (only second components are rewritten). -/
theorem any_fst_update (dict : List (String × List (String × TransitionRec)))
    (t : TransitionRec) (p : String → Bool) :
    ((dict.map (fun q =>
        if q.1 == t.source.name then (q.1, setInner q.2 t.destination.name t) else q)).any
      (fun q => p q.1)) = dict.any (fun q => p q.1) := by
  simp only [List.any_map]
  congr 1
  funext q
  by_cases hq : q.1 = t.source.name <;> simp [hq]

/-- The insertion loop succeeds iff every transition's source name is a key
of the dictionary it started from (keys are preserved along the way). -/
theorem insertTransitions_ok_iff :
    ∀ (ts : List TransitionRec) (dict : List (String × List (String × TransitionRec))),
      exceptOk (insertTransitions dict ts) =
        ts.all (fun t => dict.any (fun q => q.1 == t.source.name)) := by
  intro ts
  induction ts with
  | nil => intro dict; simp [insertTransitions, exceptOk]
  | cons t rest ih =>
    intro dict
    unfold insertTransitions insertTransition
    by_cases hk : dict.any (fun q => q.1 == t.source.name)
    · rw [if_pos hk]
      have hkeys : ∀ (u : TransitionRec),
          ((dict.map (fun q => if q.1 == t.source.name
              then (q.1, setInner q.2 t.destination.name t) else q)).any
            (fun q => q.1 == u.source.name)) =
          dict.any (fun q => q.1 == u.source.name) := by
        intro u
        exact any_fst_update dict t (fun s => s == u.source.name)
      rw [ih]
      simp only [List.all_cons, hk, Bool.true_and]
      congr 1
      funext u
      exact hkeys u
    · rw [if_neg hk]
      simp only [List.all_cons]
      rw [Bool.not_eq_true] at hk
      rw [hk]
      simp [exceptOk]

/-- C6 (amended): `System` construction fails exactly on duplicate worker
names (ValueError), a starting worker absent from the workers list — which
includes the `None` default — (ValueError), or a transition whose SOURCE
worker is not in the workers list (a KeyError rather than a validation
error); the ending worker and transition destinations are never checked, and
when none of those three conditions holds construction succeeds. -/
theorem c6_system_init_characterization (workers : List Worker)
    (transitions : List TransitionRec) (sw ew : Option Worker) :
    exceptOk (systemInit workers transitions sw ew) =
      (!namesHaveDuplicate workers && optWorkerMem sw workers &&
        transitions.all (fun t => workers.any (fun w => w.name == t.source.name))) := by
  by_cases hdup : namesHaveDuplicate workers = true
  · unfold systemInit
    rw [if_pos hdup, hdup]
    simp [exceptOk]
  · have hdupf : namesHaveDuplicate workers = false := by
      cases h : namesHaveDuplicate workers
      · rfl
      · exact absurd h hdup
    unfold systemInit
    rw [if_neg hdup, hdupf]
    by_cases hsw : optWorkerMem sw workers = true
    · rw [hsw]
      rw [if_neg (by simp)]
      have hok := insertTransitions_ok_iff transitions (workers.map (fun w => (w.name, [])))
      have hany : ∀ (ws : List Worker) (s : String),
          ((ws.map (fun w => (w.name, ([] : List (String × TransitionRec))))).any
            (fun q => q.1 == s)) = ws.any (fun w => w.name == s) := by
        intro ws s
        induction ws with
        | nil => rfl
        | cons w rest ih => simp [ih]
      have hrw : (transitions.all (fun t =>
          (workers.map (fun w => (w.name, ([] : List (String × TransitionRec))))).any
            (fun q => q.1 == t.source.name))) =
          transitions.all (fun t => workers.any (fun w => w.name == t.source.name)) := by
        congr 1
        funext t
        exact hany workers t.source.name
      rw [hrw] at hok
      rw [← hok]
      simp only [Bool.not_false, Bool.true_and]
      cases hins : insertTransitions (workers.map (fun w => (w.name, []))) transitions with
      | error e => rfl
      | ok d => rfl
    · have hswf : optWorkerMem sw workers = false := by
        cases h : optWorkerMem sw workers
        · rfl
        · exact absurd h hsw
      rw [hswf]
      rw [if_pos (by rfl)]
      simp [exceptOk]

/-- C9: constructing a `System` while leaving `starting_worker` at its
documented default `None` always raises a ValueError (either the duplicate
check or the membership check fires, and `None` is never a member of the
workers list), for every non-empty workers list; consequently, for every
successfully constructed system the "No default starting worker defined"
branch of `generate_protocol` cannot fire, whatever per-protocol starting
worker argument is supplied. -/
theorem c9_none_starting_worker (workers : List Worker)
    (transitions : List TransitionRec) (ew : Option Worker)
    (_hne : workers ≠ []) :
    (∃ e, systemInit workers transitions none ew = Except.error e ∧
        e.isValueError = true) ∧
    (∀ (sw : Option Worker) (sys : SystemRec) (g : Option Worker),
        systemInit workers transitions sw ew = Except.ok sys →
        exceptOk (resolveSource sys g) = true) := by
  constructor
  · unfold systemInit
    by_cases hdup : namesHaveDuplicate workers
    · exact ⟨SysError.valueErrorDuplicateWorkers, by rw [if_pos hdup], rfl⟩
    · refine ⟨SysError.valueErrorStartingWorkerMissing, ?_, rfl⟩
      rw [if_neg hdup]
      rw [if_pos]
      simp [optWorkerMem]
  · intro sw sys g hok
    unfold systemInit at hok
    by_cases hdup : namesHaveDuplicate workers
    · rw [if_pos hdup] at hok
      exact absurd hok (by simp)
    · rw [if_neg hdup] at hok
      by_cases hsw : optWorkerMem sw workers
      · rw [if_neg (by simp [hsw])] at hok
        cases hins : insertTransitions (workers.map (fun w => (w.name, []))) transitions with
        | error e => rw [hins] at hok; exact absurd hok (by simp)
        | ok d =>
          rw [hins] at hok
          have hsys : sys.starting_worker = sw := by
            cases hok
            rfl
          cases hswv : sw with
          | none => rw [hswv] at hsw; simp [optWorkerMem] at hsw
          | some w =>
            cases g with
            | none =>
              simp [resolveSource, hsys, hswv, exceptOk]
            | some gw =>
              simp [resolveSource, exceptOk]
      · rw [if_pos (by simp [hsw])] at hok
        exact absurd hok (by simp)

/-- The system record produced by a successful one-worker construction,
used as the concrete input of the C9 witness. -/
def sampleSystemA : SystemRec :=
  { workers := [workerInit "a" 1 false 0],
    starting_worker := some (workerInit "a" 1 false 0),
    ending_worker := none,
    transitions := [("a", [])] }

/-- Witness for C9 at a one-worker system: construction with the default
`None` fails, and the error branch cannot fire on a constructed system. -/
theorem c9_none_starting_worker_witness :
    exceptOk (systemInit [workerInit "a" 1 false 0] [] none none) = false ∧
    exceptOk (resolveSource sampleSystemA none) = true := by
  have h := c9_none_starting_worker [workerInit "a" 1 false 0] [] none (by decide)
  constructor
  · obtain ⟨e, he, _⟩ := h.1
    rw [he]
    rfl
  · exact h.2 (some (workerInit "a" 1 false 0)) sampleSystemA none (by rfl)

/-- Ephemeral authoring state of `System` used by `generate_protocol`:
`cache` is `__current_task_instances` (template id to current instance),
`latest` is `__latest_existing_start_time`, and `nextFresh` feeds
`generate_id` for clones (uuid4 ids modelled by a counter). -/
structure AuthoringState where
  cache : List (String × CTask)
  latest : Int
  nextFresh : Nat
  deriving Repr, DecidableEq

/-- Dictionary read `cache[k]` (keys are template task ids). -/
def cacheLookup (c : List (String × CTask)) (k : String) : Option CTask :=
  (c.find? (fun p => p.1 == k)).map (fun p => p.2)

/-- Dictionary write `cache[k] = v`: replace the entry for `k` (keys of a
Python dict are unique) or append a new one. -/
def cacheSet : List (String × CTask) → String → CTask → List (String × CTask)
  | [], k, v => [(k, v)]
  | p :: rest, k, v =>
    if p.1 == k then (k, v) :: rest else p :: cacheSet rest k v

/-- Two consecutive writes to the same key collapse to the second. -/
theorem cacheSet_cacheSet (c : List (String × CTask)) (k : String)
    (v0 v1 : CTask) : cacheSet (cacheSet c k v0) k v1 = cacheSet c k v1 := by
  induction c with
  | nil => simp [cacheSet]
  | cons p rest ih =>
    by_cases hp : p.1 == k
    · simp [cacheSet, hp]
    · simp [cacheSet, hp, ih]

/-- The generated id for the n-th clone of a template task
(`generate_id(prefix=result.name)`). -/
def freshIdOf (t : CTask) (n : Nat) : String :=
  t.name ++ "-clone-" ++ toString n

/-- Translation of `System.__get_task_instance` (system.py lines 81-99):
a missing cache entry is filled with a deepcopy of the template; a cache
entry whose utilized capacity EQUALS its capacity is replaced by a fresh
deepcopy; the resulting instance has its utilized capacity incremented in
place (so the cache sees the increment too) and is returned. -/
def getTaskInstance (st : AuthoringState) (task : CTask) : CTask × AuthoringState :=
  let p1 : CTask × AuthoringState :=
    match cacheLookup st.cache task.id with
    | some inst => (inst, st)
    | none =>
      let c := deepcopyTask task (freshIdOf task st.nextFresh)
      (c, { st with cache := cacheSet st.cache task.id c,
                    nextFresh := st.nextFresh + 1 })
  let p2 : CTask × AuthoringState :=
    if p1.1.utilized_capacity == p1.1.capacity then
      let c := deepcopyTask task (freshIdOf task p1.2.nextFresh)
      (c, { p1.2 with cache := cacheSet p1.2.cache task.id c,
                      nextFresh := p1.2.nextFresh + 1 })
    else p1
  let inst := { p2.1 with utilized_capacity := p2.1.utilized_capacity + 1 }
  (inst, { p2.2 with cache := cacheSet p2.2.cache task.id inst })

/-- The claim's wording of instance acquisition: if a cached instance cloned
from the template exists whose utilized capacity is STRICTLY BELOW its
capacity, reuse it with the counter incremented; otherwise create a fresh
clone, cache it, and use it (with one use recorded). -/
def getTaskInstanceClaim (st : AuthoringState) (task : CTask) :
    CTask × AuthoringState :=
  match cacheLookup st.cache task.id with
  | some inst =>
    if inst.utilized_capacity < inst.capacity then
      let used := { inst with utilized_capacity := inst.utilized_capacity + 1 }
      (used, { st with cache := cacheSet st.cache task.id used })
    else
      let c := { deepcopyTask task (freshIdOf task st.nextFresh) with
                   utilized_capacity := 1 }
      (c, { st with cache := cacheSet st.cache task.id c,
                    nextFresh := st.nextFresh + 1 })
  | none =>
    let c := { deepcopyTask task (freshIdOf task st.nextFresh) with
                 utilized_capacity := 1 }
    (c, { st with cache := cacheSet st.cache task.id c,
                  nextFresh := st.nextFresh + 1 })

/-- The instance-acquisition portion of `System.generate_protocol`
(system.py lines 117-126): if `min_start` exceeds the latest existing start
time, the shared-instance cache is cleared (and the watermark updated)
before any instance is acquired; then instances are acquired for the user
tasks in worklist order. -/
def generateProtocolInstances (st : AuthoringState) (min_start : Int)
    (worklist : List CTask) : List CTask × AuthoringState :=
  let st0 := if min_start > st.latest
             then { st with latest := min_start, cache := [] }
             else st
  worklist.foldl (fun acc t =>
    let r := getTaskInstance acc.2 t
    (acc.1 ++ [r.1], r.2)) ([], st0)

/-- The cache invariant: every cached instance respects its capacity and
has positive capacity (clones copy the template's capacity, and authored
task templates have capacity at least 1). -/
def cacheWF (c : List (String × CTask)) : Bool :=
  c.all (fun p => p.2.utilized_capacity ≤ p.2.capacity && 1 ≤ p.2.capacity)

/-- Writing an entry satisfying the capacity bound preserves the cache
invariant. -/
theorem cacheWF_set (c : List (String × CTask)) (k : String) (v : CTask)
    (hc : cacheWF c = true)
    (hv : (v.utilized_capacity ≤ v.capacity && 1 ≤ v.capacity) = true) :
    cacheWF (cacheSet c k v) = true := by
  induction c with
  | nil => simpa [cacheSet, cacheWF] using hv
  | cons p rest ih =>
    unfold cacheWF at hc
    rw [List.all_cons, Bool.and_eq_true] at hc
    by_cases hp : (p.1 == k) = true
    · have hstep : cacheSet (p :: rest) k v = (k, v) :: rest := by
        simp [cacheSet, hp]
      rw [hstep]
      unfold cacheWF
      rw [List.all_cons, Bool.and_eq_true]
      exact ⟨hv, hc.2⟩
    · have hstep : cacheSet (p :: rest) k v = p :: cacheSet rest k v := by
        simp [cacheSet, hp]
      rw [hstep]
      unfold cacheWF
      rw [List.all_cons, Bool.and_eq_true]
      exact ⟨hc.1, ih hc.2⟩

/-- One acquisition step agrees with the claim's reuse rule and preserves
the cache invariant, when the template's capacity is at least 1. -/
theorem getTaskInstance_spec (st : AuthoringState) (task : CTask)
    (hcap : 1 ≤ task.capacity) (hwf : cacheWF st.cache = true) :
    getTaskInstance st task = getTaskInstanceClaim st task ∧
    (getTaskInstance st task).1.utilized_capacity ≤
      (getTaskInstance st task).1.capacity ∧
    cacheWF (getTaskInstance st task).2.cache = true := by
  cases hfind : cacheLookup st.cache task.id with
  | none =>
    have hne0 : ¬((0 : Int) = task.capacity) := by omega
    have hgti : getTaskInstance st task =
        ({ deepcopyTask task (freshIdOf task st.nextFresh) with utilized_capacity := 1 },
         { st with
             cache := cacheSet st.cache task.id
               { deepcopyTask task (freshIdOf task st.nextFresh) with
                   utilized_capacity := 1 },
             nextFresh := st.nextFresh + 1 }) := by
      unfold getTaskInstance
      rw [hfind]
      simp [deepcopyTask, hne0, cacheSet_cacheSet]
    refine ⟨?_, ?_, ?_⟩
    · rw [hgti]
      unfold getTaskInstanceClaim
      rw [hfind]
    · rw [hgti]
      simp only [deepcopyTask]
      omega
    · rw [hgti]
      apply cacheWF_set st.cache task.id _ hwf
      simp only [deepcopyTask, Bool.and_eq_true, decide_eq_true_eq]
      omega
  | some inst =>
    have hinst : (inst.utilized_capacity ≤ inst.capacity && 1 ≤ inst.capacity) = true := by
      unfold cacheLookup at hfind
      cases hf : st.cache.find? (fun p => p.1 == task.id) with
      | none => rw [hf] at hfind; exact absurd hfind (by simp)
      | some p =>
        rw [hf] at hfind
        have hpmem := List.mem_of_find?_eq_some hf
        have hinstp : p.2 = inst := by
          simpa using hfind
        unfold cacheWF at hwf
        rw [List.all_eq_true] at hwf
        have hbound := hwf p hpmem
        rw [hinstp] at hbound
        exact hbound
    rw [Bool.and_eq_true, decide_eq_true_eq, decide_eq_true_eq] at hinst
    by_cases hstrict : inst.utilized_capacity < inst.capacity
    · have hne : ¬(inst.utilized_capacity = inst.capacity) := by omega
      have hgti : getTaskInstance st task =
          ({ inst with utilized_capacity := inst.utilized_capacity + 1 },
           { st with
               cache := cacheSet st.cache task.id
                 { inst with utilized_capacity := inst.utilized_capacity + 1 } }) := by
        unfold getTaskInstance
        rw [hfind]
        simp [hne]
      refine ⟨?_, ?_, ?_⟩
      · rw [hgti]
        unfold getTaskInstanceClaim
        rw [hfind]
        simp [hstrict]
      · rw [hgti]
        simp only
        omega
      · rw [hgti]
        apply cacheWF_set st.cache task.id _ hwf
        simp only [Bool.and_eq_true, decide_eq_true_eq]
        omega
    · have heq : inst.utilized_capacity = inst.capacity := by omega
      have hgti : getTaskInstance st task =
          ({ deepcopyTask task (freshIdOf task st.nextFresh) with utilized_capacity := 1 },
           { st with
               cache := cacheSet st.cache task.id
                 { deepcopyTask task (freshIdOf task st.nextFresh) with
                     utilized_capacity := 1 },
               nextFresh := st.nextFresh + 1 }) := by
        unfold getTaskInstance
        rw [hfind]
        simp [deepcopyTask, heq, cacheSet_cacheSet]
      refine ⟨?_, ?_, ?_⟩
      · rw [hgti]
        unfold getTaskInstanceClaim
        rw [hfind]
        simp [hstrict]
      · rw [hgti]
        simp only [deepcopyTask]
        omega
      · rw [hgti]
        apply cacheWF_set st.cache task.id _ hwf
        simp only [deepcopyTask, Bool.and_eq_true, decide_eq_true_eq]
        omega

/-- The acquisition fold keeps every produced instance within capacity and
preserves the cache invariant. -/
theorem acquisition_fold_inv :
    ∀ (wl : List CTask) (acc : List CTask) (st : AuthoringState),
      (∀ t ∈ wl, 1 ≤ t.capacity) → cacheWF st.cache = true →
      (∀ i ∈ acc, i.utilized_capacity ≤ i.capacity) →
      (∀ i ∈ (wl.foldl (fun acc t =>
          let r := getTaskInstance acc.2 t
          (acc.1 ++ [r.1], r.2)) (acc, st)).1,
        i.utilized_capacity ≤ i.capacity) ∧
      cacheWF (wl.foldl (fun acc t =>
          let r := getTaskInstance acc.2 t
          (acc.1 ++ [r.1], r.2)) (acc, st)).2.cache = true := by
  intro wl
  induction wl with
  | nil =>
    intro acc st _ hwf hacc
    exact ⟨hacc, hwf⟩
  | cons t rest ih =>
    intro acc st hcap hwf hacc
    have hspec := getTaskInstance_spec st t (hcap t (by simp)) hwf
    simp only [List.foldl_cons]
    apply ih (acc ++ [(getTaskInstance st t).1]) (getTaskInstance st t).2
    · intro u hu
      exact hcap u (by simp [hu])
    · exact hspec.2.2
    · intro i hi
      rw [List.mem_append] at hi
      cases hi with
      | inl h => exact hacc i h
      | inr h =>
        rw [List.mem_singleton] at h
        rw [h]
        exact hspec.2.1

/-- C4: in `generate_protocol`, when the requested `min_start` exceeds the
latest existing start time the shared-instance cache is cleared before any
acquisition; each acquisition follows the claim's rule (reuse a cached
instance iff its utilized capacity is strictly below its capacity,
incrementing it; otherwise clone, cache and use a fresh instance); and
consequently every instance placed in the protocol's worklist satisfies
`utilized_capacity <= capacity`. -/
theorem c4_instance_acquisition (st : AuthoringState) (min_start : Int)
    (worklist : List CTask)
    (hcap : ∀ t ∈ worklist, 1 ≤ t.capacity) (hwf : cacheWF st.cache = true) :
    (min_start > st.latest →
      generateProtocolInstances st min_start worklist =
        worklist.foldl (fun acc t =>
          let r := getTaskInstance acc.2 t
          (acc.1 ++ [r.1], r.2))
          ([], { st with latest := min_start, cache := [] })) ∧
    (∀ (s : AuthoringState) (task : CTask),
      1 ≤ task.capacity → cacheWF s.cache = true →
      getTaskInstance s task = getTaskInstanceClaim s task) ∧
    (∀ inst ∈ (generateProtocolInstances st min_start worklist).1,
      inst.utilized_capacity ≤ inst.capacity) := by
  refine ⟨?_, ?_, ?_⟩
  · intro hgt
    unfold generateProtocolInstances
    rw [if_pos hgt]
  · intro s task h1 h2
    exact (getTaskInstance_spec s task h1 h2).1
  · unfold generateProtocolInstances
    by_cases hgt : min_start > st.latest
    · rw [if_pos hgt]
      have hinv := acquisition_fold_inv worklist []
        { st with latest := min_start, cache := [] } hcap rfl (by intro i hi; simp at hi)
      exact hinv.1
    · rw [if_neg hgt]
      have hinv := acquisition_fold_inv worklist [] st hcap hwf
        (by intro i hi; simp at hi)
      exact hinv.1

/-- Witness for C4 at a concrete template and empty cache. -/
theorem c4_instance_acquisition_witness :
    getTaskInstance { cache := [], latest := 0, nextFresh := 0 } sampleSolvedTask =
      getTaskInstanceClaim { cache := [], latest := 0, nextFresh := 0 }
        sampleSolvedTask := by
  have h := c4_instance_acquisition { cache := [], latest := 0, nextFresh := 0 } 5
    [sampleSolvedTask] (by decide) rfl
  exact h.2.1 { cache := [], latest := 0, nextFresh := 0 } sampleSolvedTask
    (by decide) rfl

/-- Scheduler-side task record, translated from `roboflo/tasks.py` together
with the attribute accesses in `roboflo/scheduler.py` (which imports from
`roboflo.tasks`): a single optional precedent (stored by id, since tasks
compare by id), the `immediate`/`start`/`end`/`min_start`/`duration` fields
the model builder reads, and `transition = some (source, destination)` for
`Transition` instances (`none` for plain tasks).  `start`/`endTime` are
`Option Int` with `none` for the NaN sentinel. -/
structure STask where
  id : String
  duration : Int
  min_start : Int
  immediate : Bool
  start : Option Int
  endTime : Option Int
  precedent : Option String
  transition : Option (Worker × Worker)
  deriving Repr, DecidableEq

/-- Python list membership `task in breakpoints` / `task in tasklist`
through `Task.__eq__`, which compares ids. -/
def taskInList (ts : List STask) (t : STask) : Bool :=
  ts.any (fun b => b.id == t.id)

/-- The `while not reached_breakpoint` loop of `Scheduler._build_tasklist`
(scheduler.py lines 33-41): consume and keep tasks up to and including the
first task found in `breakpoints` (all of them when none is found),
returning the kept prefix and the unconsumed remainder of the iterator. -/
def takeToBreakpoint (bps : List STask) : List STask → List STask × List STask
  | [] => ([], [])
  | t :: rest =>
    if taskInList bps t then ([t], rest)
    else
      let r := takeToBreakpoint bps rest
      (t :: r.1, r.2)

/-- The `for task in taskit` loop of `Scheduler._build_tasklist`
(scheduler.py lines 42-49): `still_immediate` is cleared at the first
non-immediate task (before the admission test), and a task is kept when the
immediate chain is still unbroken or its start is already solved. -/
def keepAfterBreakpoint (still_immediate : Bool) : List STask → List STask
  | [] => []
  | t :: rest =>
    let si := still_immediate && t.immediate
    if si || t.start.isSome then t :: keepAfterBreakpoint si rest
    else keepAfterBreakpoint si rest

/-- Per-protocol contribution of `Scheduler._build_tasklist`. -/
def buildProtocolTasks (bps : List STask) (wl : List STask) : List STask :=
  let r := takeToBreakpoint bps wl
  r.1 ++ keepAfterBreakpoint true r.2

/-- Translation of `Scheduler._build_tasklist` (scheduler.py lines 30-49):
the tasklist is rebuilt as the concatenation of every protocol's
contribution, in protocol order. -/
def buildTasklist (protocols : List (List STask)) (bps : List STask) :
    List STask :=
  (protocols.map (buildProtocolTasks bps)).flatten

/-- Whether the task at (post-breakpoint) position j has a solved start. -/
def solvedAt (suf : List STask) (j : Nat) : Bool :=
  match suf[j]? with
  | some t => t.start.isSome
  | none => false

/-- The claim's admission test for a task at position j past the
breakpoint: either every task of the suffix up to and including position j
is immediate (an unbroken immediate chain starting right after the
breakpoint, tracked from `b`), or the task's start is already solved. -/
def chainOrSolved (b : Bool) (suf : List STask) (j : Nat) : Bool :=
  (b && (suf.take (j + 1)).all (fun t => t.immediate)) || solvedAt suf j

/-- Positional selection of the post-breakpoint tasks the claim admits. -/
def selectedTail (b : Bool) (suf : List STask) : List STask :=
  ((List.range suf.length).filter (chainOrSolved b suf)).filterMap
    (fun j => suf[j]?)

/-- The claim's wording of `_build_tasklist` for one protocol: every task up
to and including the first task present in the breakpoints (the whole
worklist when none is), followed by the later tasks that form an unbroken
immediate chain starting right after the breakpoint or whose start is
already solved. -/
def claimProtocolTasks (bps : List STask) (wl : List STask) : List STask :=
  wl.takeWhile (fun t => !taskInList bps t)
    ++ (wl.dropWhile (fun t => !taskInList bps t)).take 1
    ++ selectedTail true ((wl.dropWhile (fun t => !taskInList bps t)).drop 1)

/-- The claim's wording of the whole tasklist. -/
def claimTasklist (protocols : List (List STask)) (bps : List STask) :
    List STask :=
  (protocols.map (claimProtocolTasks bps)).flatten

theorem filterMap_filter_map_succ (p : Nat → Bool) (f : Nat → Option STask) :
    ∀ (l : List Nat),
      ((l.map Nat.succ).filter p).filterMap f =
        (l.filter (fun j => p (j + 1))).filterMap (fun j => f (j + 1)) := by
  intro l
  induction l with
  | nil => rfl
  | cons a l ih =>
    by_cases h : p (a + 1) = true
    · simp only [List.map_cons, List.filter_cons, Nat.succ_eq_add_one, h, if_true]
      rw [List.filterMap_cons, List.filterMap_cons]
      cases hf : f (a + 1) with
      | none => simpa [hf] using ih
      | some v => simpa [hf] using ih
    · simp only [List.map_cons, List.filter_cons, Nat.succ_eq_add_one, h]
      simpa using ih

theorem chainOrSolved_succ (b : Bool) (t : STask) (rest : List STask) (j : Nat) :
    chainOrSolved b (t :: rest) (j + 1) = chainOrSolved (b && t.immediate) rest j := by
  simp [chainOrSolved, solvedAt, Bool.and_assoc]

theorem selectedTail_cons (b : Bool) (t : STask) (rest : List STask) :
    selectedTail b (t :: rest) =
      (if (b && t.immediate) || t.start.isSome then [t] else []) ++
        selectedTail (b && t.immediate) rest := by
  unfold selectedTail
  rw [List.length_cons, List.range_succ_eq_map, List.filter_cons]
  have h0 : chainOrSolved b (t :: rest) 0 = ((b && t.immediate) || t.start.isSome) := by
    simp [chainOrSolved, solvedAt]
  rw [h0]
  have hshift : ((List.map Nat.succ (List.range rest.length)).filter
        (chainOrSolved b (t :: rest))).filterMap (fun j => (t :: rest)[j]?) =
      ((List.range rest.length).filter (chainOrSolved (b && t.immediate) rest)).filterMap
        (fun j => rest[j]?) := by
    rw [filterMap_filter_map_succ (chainOrSolved b (t :: rest)) (fun j => (t :: rest)[j]?)
      (List.range rest.length)]
    simp only [chainOrSolved_succ, List.getElem?_cons_succ]
  by_cases hc : ((b && t.immediate) || t.start.isSome) = true
  · rw [if_pos hc, if_pos hc]
    rw [List.filterMap_cons]
    simp only [List.getElem?_cons_zero]
    rw [hshift]
    rfl
  · rw [if_neg hc, if_neg hc]
    rw [hshift]
    rfl

theorem keepAfterBreakpoint_eq_selectedTail (b : Bool) :
    ∀ (suf : List STask), keepAfterBreakpoint b suf = selectedTail b suf := by
  intro suf
  induction suf generalizing b with
  | nil => rfl
  | cons t rest ih =>
    rw [selectedTail_cons]
    unfold keepAfterBreakpoint
    by_cases hc : ((b && t.immediate) || t.start.isSome) = true
    · rw [if_pos hc, if_pos hc]
      rw [ih]
      rfl
    · rw [if_neg hc, if_neg hc]
      rw [ih]
      rfl

theorem takeToBreakpoint_eq (bps : List STask) :
    ∀ (wl : List STask),
      takeToBreakpoint bps wl =
        (wl.takeWhile (fun t => !taskInList bps t)
           ++ (wl.dropWhile (fun t => !taskInList bps t)).take 1,
         (wl.dropWhile (fun t => !taskInList bps t)).drop 1) := by
  intro wl
  induction wl with
  | nil => rfl
  | cons t rest ih =>
    unfold takeToBreakpoint
    by_cases hb : taskInList bps t = true
    · rw [if_pos hb]
      simp [List.takeWhile_cons, List.dropWhile_cons, hb]
    · rw [if_neg hb]
      rw [Bool.not_eq_true] at hb
      simp [List.takeWhile_cons, List.dropWhile_cons, hb, ih]

/-- C1: `_build_tasklist(breakpoints)` admits, per protocol, exactly the
worklist prefix up to and including the first breakpoint task (the whole
worklist when there is none), followed by the later tasks that form an
unbroken immediate chain starting right after the breakpoint or whose start
is already solved; everything else is excluded. -/
theorem c1_build_tasklist (protocols : List (List STask)) (bps : List STask) :
    buildTasklist protocols bps = claimTasklist protocols bps := by
  unfold buildTasklist claimTasklist
  congr 1
  apply List.map_congr_left
  intro wl _
  unfold buildProtocolTasks claimProtocolTasks
  rw [takeToBreakpoint_eq]
  simp only [keepAfterBreakpoint_eq_selectedTail]

/-- A CP-SAT expression as used for `start_var`/`end_var`: either a constant
(`model.NewConstant`) or an integer variable (`model.NewIntVar`) identified
by a creation index (each `NewIntVar` call creates a distinct variable) with
its lower and upper bounds. -/
inductive CpVar where
  | constant (value : Int)
  | var (idx : Nat) (lo hi : Int)
  deriving Repr, DecidableEq

/-- Lookup of a task's attribute-stored variable by task id. -/
def lookupVar (m : List (String × CpVar)) (k : String) : Option CpVar :=
  (m.find? (fun p => p.1 == k)).map (fun p => p.2)

/-- Python `max(all_min_starts)` when the tasklist is non-empty, else 0
(scheduler.py lines 71-75). -/
def latestMinStart (tl : List STask) : Int :=
  match tl.map (fun t => t.min_start) with
  | [] => 0
  | x :: xs => xs.foldl max x

/-- The solver horizon: `sum(durations) + latest_min_start`
(scheduler.py line 76). -/
def computeHorizon (tl : List STask) : Int :=
  (tl.map (fun t => t.duration)).sum + latestMinStart tl

/-- State of the first `for task in self.tasklist` loop (scheduler.py lines
79-86): the variable-creation counter, the `end_var` attribute per task id,
and the `ending_variables` list fed to the makespan objective. -/
structure Pass1State where
  nextVar : Nat
  endVars : List (String × CpVar)
  endingVariables : List CpVar
  deriving Repr, DecidableEq

/-- One step of the end-variable loop: a solved end becomes a constant; an
unsolved one becomes a fresh integer variable over
`[duration + min_start, horizon]`, also collected for the objective. -/
def assignEndVar (horizon : Int) (st : Pass1State) (t : STask) : Pass1State :=
  match t.endTime with
  | some e => { st with endVars := st.endVars ++ [(t.id, CpVar.constant e)] }
  | none =>
    let v := CpVar.var st.nextVar (t.duration + t.min_start) horizon
    { nextVar := st.nextVar + 1,
      endVars := st.endVars ++ [(t.id, v)],
      endingVariables := st.endingVariables ++ [v] }

/-- The full end-variable loop. -/
def pass1 (horizon : Int) (tl : List STask) : Pass1State :=
  tl.foldl (assignEndVar horizon) { nextVar := 0, endVars := [], endingVariables := [] }

/-- State of the second `for task in self.tasklist` loop (scheduler.py lines
88-100): the variable counter continues from pass 1, `startVars` records the
`start_var` attribute per task id, and `constraints` records each
`model.Add(start_var >= precedent.end_var)` as an ordered pair. -/
structure Pass2State where
  nextVar : Nat
  startVars : List (String × CpVar)
  constraints : List (CpVar × CpVar)
  deriving Repr, DecidableEq

/-- One step of the start-variable loop (scheduler.py lines 88-100).  An
immediate task with a precedent takes the precedent's `end_var` object as
its own `start_var` (no variable is created); otherwise a solved start
becomes a constant, and an unsolved one becomes a fresh integer variable
over `[min_start, horizon]` with a `start_var >= precedent.end_var`
constraint when a precedent exists.  Reading the `end_var` attribute of a
precedent that was not given one in this model raises AttributeError,
modelled as an error. -/
def assignStartVar (horizon : Int) (endVars : List (String × CpVar))
    (st : Pass2State) (t : STask) : Except String Pass2State :=
  if t.immediate && t.precedent.isSome then
    match t.precedent.bind (lookupVar endVars) with
    | some pv =>
      Except.ok { st with startVars := st.startVars ++ [(t.id, pv)] }
    | none => Except.error "AttributeError: precedent has no end_var in this model"
  else
    match t.start with
    | some s =>
      Except.ok { st with startVars := st.startVars ++ [(t.id, CpVar.constant s)] }
    | none =>
      let v := CpVar.var st.nextVar t.min_start horizon
      match t.precedent with
      | none =>
        Except.ok { st with nextVar := st.nextVar + 1,
                            startVars := st.startVars ++ [(t.id, v)] }
      | some pid =>
        match lookupVar endVars pid with
        | some pv =>
          Except.ok { nextVar := st.nextVar + 1,
                      startVars := st.startVars ++ [(t.id, v)],
                      constraints := st.constraints ++ [(v, pv)] }
        | none => Except.error "AttributeError: precedent has no end_var in this model"

/-- The full start-variable loop. -/
def pass2 (horizon : Int) (endVars : List (String × CpVar))
    (st : Pass2State) : List STask → Except String Pass2State
  | [] => Except.ok st
  | t :: rest =>
    match assignStartVar horizon endVars st t with
    | Except.error e => Except.error e
    | Except.ok st1 => pass2 horizon endVars st1 rest

/-- The variable-creation part of `Scheduler._initialize_model`
(scheduler.py lines 67-100): horizon, end variables, then start variables
(continuing the variable counter). -/
def initializeModel (tl : List STask) : Except String (Pass1State × Pass2State) :=
  let horizon := computeHorizon tl
  let p1 := pass1 horizon tl
  match pass2 horizon p1.endVars
      { nextVar := p1.nextVar, startVars := [], constraints := [] } tl with
  | Except.error e => Except.error e
  | Except.ok p2 => Except.ok (p1, p2)

theorem lookupVar_append_cons (A L : List (String × CpVar)) (k : String)
    (v : CpVar) (hA : k ∉ A.map Prod.fst) :
    lookupVar (A ++ (k, v) :: L) k = some v := by
  induction A with
  | nil => simp [lookupVar]
  | cons p A ih =>
    have hp : ¬(p.1 == k) = true := by
      simp only [List.map_cons, List.mem_cons] at hA
      simp only [beq_iff_eq]
      intro he
      exact hA (Or.inl he.symm)
    have hA2 : k ∉ A.map Prod.fst := by
      simp only [List.map_cons, List.mem_cons] at hA
      intro hmem
      exact hA (Or.inr hmem)
    simp only [List.cons_append, lookupVar, List.find?_cons, hp]
    exact ih hA2

theorem assignStartVar_shape (horizon : Int) (ev : List (String × CpVar))
    (st : Pass2State) (t : STask) (st1 : Pass2State)
    (h : assignStartVar horizon ev st t = Except.ok st1) :
    (∃ v, st1.startVars = st.startVars ++ [(t.id, v)]) ∧
    st.nextVar ≤ st1.nextVar ∧
    (∃ C, st1.constraints = st.constraints ++ C) := by
  unfold assignStartVar at h
  split at h
  · split at h
    · rename_i pv _
      cases h
      exact ⟨⟨pv, rfl⟩, le_refl _, ⟨[], by simp⟩⟩
    · exact absurd h (by simp)
  · split at h
    · rename_i s _
      cases h
      exact ⟨⟨CpVar.constant s, rfl⟩, le_refl _, ⟨[], by simp⟩⟩
    · split at h
      · cases h
        exact ⟨⟨CpVar.var st.nextVar t.min_start horizon, rfl⟩,
          by simp, ⟨[], by simp⟩⟩
      · split at h
        · rename_i pv _
          cases h
          exact ⟨⟨CpVar.var st.nextVar t.min_start horizon, rfl⟩,
            by simp, ⟨[(CpVar.var st.nextVar t.min_start horizon, pv)], rfl⟩⟩
        · exact absurd h (by simp)

theorem pass2_shape (horizon : Int) (ev : List (String × CpVar)) :
    ∀ (l : List STask) (st fs : Pass2State),
      pass2 horizon ev st l = Except.ok fs →
      (∃ L, fs.startVars = st.startVars ++ L ∧
        L.map Prod.fst = l.map (fun t => t.id)) ∧
      st.nextVar ≤ fs.nextVar ∧
      (∃ C, fs.constraints = st.constraints ++ C) := by
  intro l
  induction l with
  | nil =>
    intro st fs h
    simp only [pass2] at h
    cases h
    exact ⟨⟨[], by simp, rfl⟩, le_refl _, ⟨[], by simp⟩⟩
  | cons u rest ih =>
    intro st fs h
    unfold pass2 at h
    cases ha : assignStartVar horizon ev st u with
    | error e => rw [ha] at h; exact absurd h (by simp)
    | ok st1 =>
      rw [ha] at h
      obtain ⟨⟨v, hv⟩, hn, ⟨C0, hC0⟩⟩ := assignStartVar_shape horizon ev st u st1 ha
      obtain ⟨⟨L, hL, hLids⟩, hn2, ⟨C1, hC1⟩⟩ := ih st1 fs h
      refine ⟨⟨(u.id, v) :: L, ?_, ?_⟩, le_trans hn hn2, ⟨C0 ++ C1, ?_⟩⟩
      · rw [hL, hv]
        simp
      · simp [hLids]
      · rw [hC1, hC0]
        simp

theorem pass2_start_rules (horizon : Int) (ev : List (String × CpVar)) :
    ∀ (l : List STask) (st fs : Pass2State),
      pass2 horizon ev st l = Except.ok fs →
      (l.map (fun t => t.id)).Nodup →
      ∀ t, t ∈ l → t.id ∉ st.startVars.map Prod.fst →
      ((t.immediate = true → ∀ pid, t.precedent = some pid →
         ∃ v, lookupVar ev pid = some v ∧ lookupVar fs.startVars t.id = some v) ∧
       ((t.immediate = false ∨ t.precedent = none) → t.start = none →
         ∃ k, st.nextVar ≤ k ∧
           lookupVar fs.startVars t.id = some (CpVar.var k t.min_start horizon) ∧
           (∀ pid, t.precedent = some pid →
             ∃ pv, lookupVar ev pid = some pv ∧
               (CpVar.var k t.min_start horizon, pv) ∈ fs.constraints))) := by
  intro l
  induction l with
  | nil =>
    intro st fs _ _ t ht
    exact absurd ht (by simp)
  | cons u rest ih =>
    intro st fs h hnd t ht hfresh
    unfold pass2 at h
    cases ha : assignStartVar horizon ev st u with
    | error e => rw [ha] at h; exact absurd h (by simp)
    | ok st1 =>
      rw [ha] at h
      rw [List.map_cons, List.nodup_cons] at hnd
      rw [List.mem_cons] at ht
      cases ht with
      | inr htr =>
        have hne : t.id ≠ u.id := by
          intro he
          exact hnd.1 (he ▸ List.mem_map_of_mem (fun x => x.id) htr)
        obtain ⟨⟨v, hv⟩, hn, _⟩ := assignStartVar_shape horizon ev st u st1 ha
        have hfresh1 : t.id ∉ st1.startVars.map Prod.fst := by
          rw [hv]
          simp only [List.map_append, List.mem_append]
          intro hc
          cases hc with
          | inl h1 => exact hfresh h1
          | inr h2 =>
            simp only [List.map_cons, List.map_nil, List.mem_singleton] at h2
            exact hne h2
        have hmain := ih st1 fs h hnd.2 t htr hfresh1
        refine ⟨hmain.1, ?_⟩
        intro hcase hstart
        obtain ⟨k, hk, hrest2⟩ := hmain.2 hcase hstart
        exact ⟨k, le_trans hn hk, hrest2⟩
      | inl hteq =>
        subst hteq
        obtain ⟨⟨L, hL, hLids⟩, _, ⟨C1, hC1⟩⟩ := pass2_shape horizon ev rest st1 fs h
        constructor
        · intro himm pid hpid
          unfold assignStartVar at ha
          rw [if_pos (by rw [himm, hpid]; rfl)] at ha
          simp only [hpid, Option.bind] at ha
          cases hlv : lookupVar ev pid with
          | none => rw [hlv] at ha; exact absurd ha (by simp)
          | some pv =>
            rw [hlv] at ha
            cases ha
            refine ⟨pv, rfl, ?_⟩
            have hL2 : fs.startVars = st.startVars ++ (t.id, pv) :: L := by
              rw [hL]
              simp
            rw [hL2]
            exact lookupVar_append_cons st.startVars L t.id pv hfresh
        · intro hcase hstart
          have hguard : ¬((t.immediate && t.precedent.isSome) = true) := by
            cases hcase with
            | inl h1 => simp [h1]
            | inr h2 => simp [h2]
          unfold assignStartVar at ha
          rw [if_neg hguard] at ha
          cases hprec : t.precedent with
          | none =>
            simp only [hstart, hprec] at ha
            cases ha
            refine ⟨st.nextVar, le_refl _, ?_, ?_⟩
            · have hL2 : fs.startVars = st.startVars ++
                  (t.id, CpVar.var st.nextVar t.min_start horizon) :: L := by
                rw [hL]
                simp
              rw [hL2]
              exact lookupVar_append_cons st.startVars L t.id _ hfresh
            · intro pid hpid
              exact absurd hpid (by simp)
          | some pid =>
            simp only [hstart, hprec] at ha
            cases hlv : lookupVar ev pid with
            | none =>
              simp only [hlv] at ha
              exact absurd ha (by simp)
            | some pv =>
              simp only [hlv] at ha
              cases ha
              refine ⟨st.nextVar, le_refl _, ?_, ?_⟩
              · have hL2 : fs.startVars = st.startVars ++
                    (t.id, CpVar.var st.nextVar t.min_start horizon) :: L := by
                  rw [hL]
                  simp
                rw [hL2]
                exact lookupVar_append_cons st.startVars L t.id _ hfresh
              · intro pid2 hpid2
                cases hpid2
                refine ⟨pv, hlv, ?_⟩
                rw [hC1]
                simp

theorem pass1_fold_bound (horizon : Int) :
    ∀ (tl : List STask) (st : Pass1State),
      (∀ q ∈ st.endVars, ∀ i lo hi, q.2 = CpVar.var i lo hi → i < st.nextVar) →
      (∀ q ∈ (tl.foldl (assignEndVar horizon) st).endVars, ∀ i lo hi,
        q.2 = CpVar.var i lo hi → i < (tl.foldl (assignEndVar horizon) st).nextVar) := by
  intro tl
  induction tl with
  | nil => intro st hst; exact hst
  | cons t rest ih =>
    intro st hst
    rw [List.foldl_cons]
    apply ih
    intro q hq i lo hi hq2
    cases he : t.endTime with
    | some e =>
      simp only [assignEndVar, he] at hq ⊢
      rw [List.mem_append] at hq
      cases hq with
      | inl h1 => exact hst q h1 i lo hi hq2
      | inr h2 =>
        rw [List.mem_singleton] at h2
        rw [h2] at hq2
        exact absurd hq2 (by simp)
    | none =>
      simp only [assignEndVar, he] at hq ⊢
      rw [List.mem_append] at hq
      cases hq with
      | inl h1 => exact Nat.lt_succ_of_lt (hst q h1 i lo hi hq2)
      | inr h2 =>
        rw [List.mem_singleton] at h2
        rw [h2] at hq2
        simp only at hq2
        cases hq2
        exact Nat.lt_succ_self _

/-- C2: for every task T of the tasklist, in the constructed model: when T
is immediate and has a precedent, its start variable IS the precedent's end
variable (the same solver object, so no new variable is created); otherwise,
when T's start is not already solved, T's start variable is a fresh integer
variable over `[min_start, horizon]` — distinct from every end variable —
and a `start_var >= precedent.end_var` constraint is recorded for the
precedent when one exists. -/
theorem c2_start_variable_rules (tl : List STask) (p1 : Pass1State)
    (p2 : Pass2State) (hids : (tl.map (fun t => t.id)).Nodup)
    (hrun : initializeModel tl = Except.ok (p1, p2))
    (t : STask) (ht : t ∈ tl) :
    (t.immediate = true → ∀ pid, t.precedent = some pid →
      ∃ v, lookupVar p1.endVars pid = some v ∧
        lookupVar p2.startVars t.id = some v) ∧
    ((t.immediate = false ∨ t.precedent = none) → t.start = none →
      ∃ k, lookupVar p2.startVars t.id =
          some (CpVar.var k t.min_start (computeHorizon tl)) ∧
        (∀ q ∈ p1.endVars, q.2 ≠ CpVar.var k t.min_start (computeHorizon tl)) ∧
        (∀ pid, t.precedent = some pid →
          ∃ pv, lookupVar p1.endVars pid = some pv ∧
            (CpVar.var k t.min_start (computeHorizon tl), pv) ∈ p2.constraints)) := by
  have hrun2 : (match pass2 (computeHorizon tl) (pass1 (computeHorizon tl) tl).endVars
      { nextVar := (pass1 (computeHorizon tl) tl).nextVar, startVars := [],
        constraints := [] } tl with
    | Except.error e => Except.error e
    | Except.ok p2 => Except.ok (pass1 (computeHorizon tl) tl, p2)) =
      Except.ok (p1, p2) := hrun
  cases hp2 : pass2 (computeHorizon tl) (pass1 (computeHorizon tl) tl).endVars
      { nextVar := (pass1 (computeHorizon tl) tl).nextVar, startVars := [],
        constraints := [] } tl with
  | error e =>
    rw [hp2] at hrun2
    exact absurd hrun2 (by simp)
  | ok fs =>
    rw [hp2] at hrun2
    have hinj : p1 = pass1 (computeHorizon tl) tl ∧ p2 = fs := by
      cases hrun2
      exact ⟨rfl, rfl⟩
    obtain ⟨hp1eq, hp2eq⟩ := hinj
    subst hp1eq
    subst hp2eq
    have hrules := pass2_start_rules (computeHorizon tl)
      (pass1 (computeHorizon tl) tl).endVars tl
      { nextVar := (pass1 (computeHorizon tl) tl).nextVar, startVars := [],
        constraints := [] } _ hp2 hids t ht (by simp)
    refine ⟨hrules.1, ?_⟩
    intro hcase hstart
    obtain ⟨k, hk, hlook, hcons⟩ := hrules.2 hcase hstart
    refine ⟨k, hlook, ?_, hcons⟩
    intro q hq heq
    have hbound := pass1_fold_bound (computeHorizon tl) tl
      { nextVar := 0, endVars := [], endingVariables := [] }
      (by intro q hq; exact absurd hq (by simp)) q hq
    have hb2 : k < (pass1 (computeHorizon tl) tl).nextVar :=
      hbound k t.min_start (computeHorizon tl) heq
    have hb3 : (pass1 (computeHorizon tl) tl).nextVar ≤ k := hk
    omega

/-- A concrete unsolved task without precedent, for the C2 witness. -/
def wT1 : STask :=
  { id := "w1", duration := 2, min_start := 0, immediate := false,
    start := none, endTime := none, precedent := none, transition := none }

/-- A concrete immediate task with `wT1` as precedent, for the C2 witness. -/
def wT2 : STask :=
  { id := "w2", duration := 3, min_start := 2, immediate := true,
    start := none, endTime := none, precedent := some "w1", transition := none }

/-- The pass-1 state `initializeModel [wT1, wT2]` produces. -/
def c2SampleP1 : Pass1State :=
  { nextVar := 2,
    endVars := [("w1", CpVar.var 0 2 7), ("w2", CpVar.var 1 5 7)],
    endingVariables := [CpVar.var 0 2 7, CpVar.var 1 5 7] }

/-- The pass-2 state `initializeModel [wT1, wT2]` produces. -/
def c2SampleP2 : Pass2State :=
  { nextVar := 3,
    startVars := [("w1", CpVar.var 2 0 7), ("w2", CpVar.var 0 2 7)],
    constraints := [] }

/-- Witness for C2: on the concrete tasklist `[wT1, wT2]`, the immediate
task's start variable is the very end variable of its precedent. -/
theorem c2_start_variable_rules_witness :
    ∃ v, lookupVar c2SampleP1.endVars "w1" = some v ∧
      lookupVar c2SampleP2.startVars "w2" = some v := by
  have h := c2_start_variable_rules [wT1, wT2] c2SampleP1 c2SampleP2
    (by decide) (by rfl) wT2 (by simp)
  exact h.1 rfl "w1" rfl

/-- A sample-span interval as created by `model.NewIntervalVar(task0.start_var,
duration, task1.end_var, "sampleinterval")`: it records which task's start
variable and which task's end variable bound it, the unit-capacity
destination worker it occupies, and the bounds `[0, horizon]` of the free
duration variable `model.NewIntVar(0, horizon, "duration")`. -/
structure SpanRec where
  t0 : String
  t1 : String
  worker : String
  durLo : Int
  durHi : Int
  deriving Repr, DecidableEq

/-- The inner `for task1 in protocol.worklist[i:]` loop (scheduler.py lines
133-149): skip tasks not in the tasklist and non-Transitions, and stop at
the first transition whose source equals the destination in question.  The
scan starts at index i, so `task0` itself is a candidate. -/
def findDeparture (tl : List STask) (dest : String) : List STask → Option STask
  | [] => none
  | t1 :: rest =>
    if !taskInList tl t1 then findDeparture tl dest rest
    else
      match t1.transition with
      | none => findDeparture tl dest rest
      | some sd =>
        if sd.1.name == dest then some t1 else findDeparture tl dest rest

/-- The outer `for i, task0 in enumerate(protocol.worklist)` loop
(scheduler.py lines 123-149) for one protocol: each Transition in the
tasklist whose destination has capacity 1 contributes at most one span,
ending at the first matching departure found from its own position on. -/
def spansForProtocol (tl : List STask) (horizon : Int) :
    List STask → List SpanRec
  | [] => []
  | t0 :: rest =>
    (if !taskInList tl t0 then []
     else
       match t0.transition with
       | none => []
       | some sd =>
         if sd.2.capacity == 1 then
           match findDeparture tl sd.2.name (t0 :: rest) with
           | some t1 =>
             [{ t0 := t0.id, t1 := t1.id, worker := sd.2.name,
                durLo := 0, durHi := horizon }]
           | none => []
         else []) ++ spansForProtocol tl horizon rest

/-- All sample spans, per protocol in order (scheduler.py lines 123-149). -/
def buildSpans (tl : List STask) (horizon : Int)
    (protocols : List (List STask)) : List SpanRec :=
  (protocols.map (spansForProtocol tl horizon)).flatten

/-- The claim's pairing rule, as stated: the departure is the first
SUBSEQUENT Transition of the worklist with matching source (with no demand
that it be in the tasklist). -/
def claimFindDeparture (dest : String) : List STask → Option STask
  | [] => none
  | t1 :: rest =>
    match t1.transition with
    | some sd => if sd.1.name == dest then some t1 else claimFindDeparture dest rest
    | none => claimFindDeparture dest rest

/-- Span construction exactly as the claim words it. -/
def claimSpansForProtocol (tl : List STask) (horizon : Int) :
    List STask → List SpanRec
  | [] => []
  | t0 :: rest =>
    (if !taskInList tl t0 then []
     else
       match t0.transition with
       | none => []
       | some sd =>
         if sd.2.capacity == 1 then
           match claimFindDeparture sd.2.name rest with
           | some t1 =>
             [{ t0 := t0.id, t1 := t1.id, worker := sd.2.name,
                durLo := 0, durHi := horizon }]
           | none => []
         else []) ++ claimSpansForProtocol tl horizon rest

/-- All spans as the claim words them. -/
def claimBuildSpans (tl : List STask) (horizon : Int)
    (protocols : List (List STask)) : List SpanRec :=
  (protocols.map (claimSpansForProtocol tl horizon)).flatten

/-- The amended pairing predicate: a departure is a Transition that is in
the tasklist and leaves from the given destination. -/
def departureMatch (tl : List STask) (dest : String) (t1 : STask) : Bool :=
  taskInList tl t1 &&
    (match t1.transition with
     | some sd => sd.1.name == dest
     | none => false)

/-- Span construction as the amended claim words it: the departure is the
FIRST worklist element at or after t0's own position that is in the
tasklist and is a Transition with source equal to t0's destination. -/
def amendedSpansForProtocol (tl : List STask) (horizon : Int) :
    List STask → List SpanRec
  | [] => []
  | t0 :: rest =>
    (if !taskInList tl t0 then []
     else
       match t0.transition with
       | none => []
       | some sd =>
         if sd.2.capacity == 1 then
           match (t0 :: rest).find? (departureMatch tl sd.2.name) with
           | some t1 =>
             [{ t0 := t0.id, t1 := t1.id, worker := sd.2.name,
                durLo := 0, durHi := horizon }]
           | none => []
         else []) ++ amendedSpansForProtocol tl horizon rest

/-- All spans as the amended claim words them. -/
def amendedBuildSpans (tl : List STask) (horizon : Int)
    (protocols : List (List STask)) : List SpanRec :=
  (protocols.map (amendedSpansForProtocol tl horizon)).flatten

/-- The per-worker accumulation `spanning_tasks[task0.destination].append`
(scheduler.py line 148), as a loop over the created spans: appending for a
worker that is not a dictionary key raises KeyError. -/
def groupSpansAux (groups : List (String × List SpanRec)) :
    List SpanRec → Except String (List (String × List SpanRec))
  | [] => Except.ok groups
  | sp :: rest =>
    if groups.any (fun g => g.1 == sp.worker) then
      groupSpansAux
        (groups.map (fun g => if g.1 == sp.worker then (g.1, g.2 ++ [sp]) else g))
        rest
    else Except.error "KeyError: destination is not a unit-capacity system worker"

/-- `spanning_tasks = {w: [] for w in self.system.workers if w.capacity == 1}`
followed by the appends (scheduler.py lines 123 and 148). -/
def groupSpans (workers : List Worker) (spans : List SpanRec) :
    Except String (List (String × List SpanRec)) :=
  groupSpansAux
    ((workers.filter (fun w => w.capacity == 1)).map (fun w => (w.name, [])))
    spans

/-- The no-overlap constraints: one per group, over that group's spans
(`for intervals in spanning_tasks.values(): self.model.AddNoOverlap(...)`,
scheduler.py lines 151-152). -/
def spanNoOverlaps (workers : List Worker) (spans : List SpanRec) :
    Except String (List (List SpanRec)) :=
  match groupSpans workers spans with
  | Except.error e => Except.error e
  | Except.ok groups => Except.ok (groups.map (fun g => g.2))

theorem findDeparture_eq_find? (tl : List STask) (dest : String) :
    ∀ (l : List STask), findDeparture tl dest l = l.find? (departureMatch tl dest) := by
  intro l
  induction l with
  | nil => rfl
  | cons t1 rest ih =>
    rw [List.find?_cons]
    cases hin : taskInList tl t1 with
    | false =>
      have hm : departureMatch tl dest t1 = false := by
        simp [departureMatch, hin]
      rw [hm]
      simp [findDeparture, hin, ih]
    | true =>
      cases htr : t1.transition with
      | none =>
        have hm : departureMatch tl dest t1 = false := by
          simp [departureMatch, htr]
        rw [hm]
        simp [findDeparture, hin, htr, ih]
      | some sd =>
        cases hs : (sd.1.name == dest) with
        | true =>
          have hm : departureMatch tl dest t1 = true := by
            simp [departureMatch, htr, hin, hs]
          rw [hm]
          simp [findDeparture, hin, htr, hs]
        | false =>
          have hm : departureMatch tl dest t1 = false := by
            simp [departureMatch, htr, hin, hs]
          rw [hm]
          simp [findDeparture, hin, htr, hs, ih]

theorem spansForProtocol_eq_amended (tl : List STask) (horizon : Int) :
    ∀ (wl : List STask),
      spansForProtocol tl horizon wl = amendedSpansForProtocol tl horizon wl := by
  intro wl
  induction wl with
  | nil => rfl
  | cons t0 rest ih =>
    unfold spansForProtocol amendedSpansForProtocol
    rw [ih]
    simp only [findDeparture_eq_find?]

theorem groupSpansAux_eq :
    ∀ (spans : List SpanRec) (names : List String) (f : String → List SpanRec),
      (∀ sp ∈ spans, sp.worker ∈ names) →
      groupSpansAux (names.map (fun n => (n, f n))) spans =
        Except.ok (names.map (fun n =>
          (n, f n ++ spans.filter (fun sp => sp.worker == n)))) := by
  intro spans
  induction spans with
  | nil =>
    intro names f _
    simp [groupSpansAux]
  | cons sp rest ih =>
    intro names f hcov
    have hmem : sp.worker ∈ names := hcov sp (by simp)
    have hany : ((names.map (fun n => (n, f n))).any
        (fun g => g.1 == sp.worker)) = true := by
      rw [List.any_eq_true]
      exact ⟨(sp.worker, f sp.worker), List.mem_map_of_mem _ hmem, by simp⟩
    unfold groupSpansAux
    rw [if_pos hany]
    have hmap : (names.map (fun n => (n, f n))).map
        (fun g => if g.1 == sp.worker then (g.1, g.2 ++ [sp]) else g) =
        names.map (fun n => (n, if n == sp.worker then f n ++ [sp] else f n)) := by
      rw [List.map_map]
      apply List.map_congr_left
      intro n _
      by_cases hn : n = sp.worker
      · simp [hn]
      · simp [hn]
    rw [hmap]
    rw [ih names (fun n => if n == sp.worker then f n ++ [sp] else f n)
      (fun q hq => hcov q (by simp [hq]))]
    congr 1
    apply List.map_congr_left
    intro n _
    by_cases hn : n = sp.worker
    · subst hn
      simp [List.filter_cons]
    · have hn2 : sp.worker ≠ n := fun he => hn he.symm
      simp [List.filter_cons, hn, hn2]

/-- C3 counterexample input: a transition whose source and destination are
the same unit-capacity worker. -/
def spanWorkerW : Worker := workerInit "w" 1 false 0

/-- The self-transition for the C3 counterexample. -/
def selfTransition : STask :=
  { id := "t", duration := 4, min_start := 0, immediate := false,
    start := none, endTime := none, precedent := none,
    transition := some (spanWorkerW, spanWorkerW) }

/-- C3 counterexample: the inner scan starts at the arrival's own position
(`protocol.worklist[i:]`), so a self-transition into a unit-capacity worker
is paired with ITSELF, while the claim's "first subsequent Transition"
yields no pair; the code creates a span the claim says must not exist. -/
theorem c3_spans_counterexample :
    buildSpans [selfTransition] 10 [[selfTransition]] ≠
      claimBuildSpans [selfTransition] 10 [[selfTransition]] ∧
    buildSpans [selfTransition] 10 [[selfTransition]] =
      [{ t0 := "t", t1 := "t", worker := "w", durLo := 0, durHi := 10 }] := by
  decide

/-- C3 (amended): for every protocol, each Transition t0 in the tasklist
whose destination has capacity 1 yields exactly one span — from t0's start
variable to the end variable of the first Transition at or after t0's own
worklist position that is in the tasklist and has source equal to t0's
destination (so t0 itself is paired when its source equals its destination;
worklist departures filtered out of the tasklist are skipped), with a free
duration variable over [0, horizon] — and no span otherwise; the spans are
grouped per unit-capacity system worker and each group gets one no-overlap
constraint.  (Worker names are assumed distinct, as `System` validates, so
the association list models the Python dictionary.) -/
theorem c3_sample_spans (workers : List Worker) (tl : List STask)
    (horizon : Int) (protocols : List (List STask))
    (_hnodup : ((workers.filter (fun w => w.capacity == 1)).map
      (fun w => w.name)).Nodup)
    (hcov : ∀ sp ∈ buildSpans tl horizon protocols,
      sp.worker ∈ (workers.filter (fun w => w.capacity == 1)).map
        (fun w => w.name)) :
    buildSpans tl horizon protocols = amendedBuildSpans tl horizon protocols ∧
    spanNoOverlaps workers (buildSpans tl horizon protocols) =
      Except.ok ((workers.filter (fun w => w.capacity == 1)).map (fun w =>
        (buildSpans tl horizon protocols).filter
          (fun sp => sp.worker == w.name))) := by
  constructor
  · unfold buildSpans amendedBuildSpans
    congr 1
    apply List.map_congr_left
    intro wl _
    exact spansForProtocol_eq_amended tl horizon wl
  · unfold spanNoOverlaps groupSpans
    have hshape : (workers.filter (fun w => w.capacity == 1)).map
        (fun w => (w.name, ([] : List SpanRec))) =
        ((workers.filter (fun w => w.capacity == 1)).map (fun w => w.name)).map
          (fun n => (n, [])) := by
      rw [List.map_map]
      rfl
    rw [hshape]
    rw [groupSpansAux_eq (buildSpans tl horizon protocols)
      ((workers.filter (fun w => w.capacity == 1)).map (fun w => w.name))
      (fun _ => []) hcov]
    simp [List.map_map]

/-- Witness for the amended C3 at the concrete self-transition system. -/
theorem c3_sample_spans_witness :
    spanNoOverlaps [spanWorkerW] (buildSpans [selfTransition] 10 [[selfTransition]]) =
      Except.ok
        [[{ t0 := "t", t1 := "t", worker := "w", durLo := 0, durHi := 10 }]] := by
  have h := c3_sample_spans [spanWorkerW] [selfTransition] 10 [[selfTransition]]
    (by decide) (by decide)
  rw [h.2]
  rfl

/-- Scheduler state as `solve`/`_solve_once` use it (scheduler.py lines
9-19, 166-197): the registered protocols, the current tasklist, the task
count of the previous solve, and `self.solver`, which is `none` until a
`cp_model.CpSolver()` is first constructed inside `_solve_once` (the
attribute does not exist before that; reading it then raises
AttributeError). -/
structure SchedState where
  protocols : List (List STask)
  tasklist : List STask
  numTasksOnLastSolve : Nat
  solver : Option Nat
  deriving Repr, DecidableEq

/-- Control flow of `Scheduler._solve_once` (scheduler.py lines 166-185):
after `_initialize_model`, if the tasklist has the same length as on the
previous solve the method returns WITHOUT constructing `self.solver`;
otherwise the solver is constructed and run and the count updated.  The CP
solve itself and the write-back of solved values are abstracted away (they
do not touch `self.solver`'s existence, which is all this claim needs). -/
def solveOnce (st : SchedState) : SchedState :=
  if st.tasklist.length == st.numTasksOnLastSolve then st
  else { st with solver := some 0, numTasksOnLastSolve := st.tasklist.length }

/-- The read `self.solver.StatusName()` after each `_solve_once` call in
`Scheduler.solve` (scheduler.py lines 193 and 197): AttributeError when the
solver attribute was never created. -/
def solveStatusRead (st : SchedState) : Except String SchedState :=
  match st.solver with
  | none => Except.error "AttributeError: Scheduler object has no attribute solver"
  | some _ => Except.ok st

/-- The breakpoint-phase loop of `Scheduler.solve` (scheduler.py lines
189-193): non-empty breakpoint sets trigger a rebuild, a solve, and a
status print. -/
def solvePhases (st : SchedState) : List (List STask) → Except String SchedState
  | [] => Except.ok st
  | bp :: rest =>
    if bp.length > 0 then
      match solveStatusRead (solveOnce
          { st with tasklist := buildTasklist st.protocols bp }) with
      | Except.error e => Except.error e
      | Except.ok st2 => solvePhases st2 rest
    else solvePhases st rest

/-- Translation of `Scheduler.solve` (scheduler.py lines 187-197): the
phase loop, then the final unconstrained rebuild, `_solve_once`, and the
`self.solver.StatusName()` read.  The default value of `breakpoints` is
`[[]]`. -/
def solve (st : SchedState) (breakpoints : List (List STask)) :
    Except String SchedState :=
  match solvePhases st breakpoints with
  | Except.error e => Except.error e
  | Except.ok st1 =>
    solveStatusRead (solveOnce { st1 with tasklist := buildTasklist st1.protocols [] })

/-- C10: calling `solve` (with the default `breakpoints=[[]]`) on a
scheduler whose rebuilt tasklist has the same length as on the previous
solve and whose solver attribute was never created raises AttributeError:
`_solve_once` returns before constructing `self.solver`, and `solve` then
reads `self.solver.StatusName()`. -/
theorem c10_solve_attribute_error (st : SchedState)
    (hsolver : st.solver = none)
    (hlen : (buildTasklist st.protocols []).length = st.numTasksOnLastSolve) :
    solve st [[]] =
      Except.error "AttributeError: Scheduler object has no attribute solver" := by
  have hph : solvePhases st [[]] = Except.ok st := by
    simp [solvePhases]
  unfold solve
  simp only [hph]
  unfold solveOnce
  rw [if_pos (by simp [hlen])]
  simp [solveStatusRead, hsolver]

/-- Witness for C10: the very first `solve` on a scheduler with zero
registered protocols (both tasklist lengths are 0). -/
theorem c10_solve_attribute_error_witness :
    solve { protocols := [], tasklist := [], numTasksOnLastSolve := 0,
            solver := none } [[]] =
      Except.error "AttributeError: Scheduler object has no attribute solver" :=
  c10_solve_attribute_error
    { protocols := [], tasklist := [], numTasksOnLastSolve := 0, solver := none }
    rfl rfl

end Roboflo
